import Mathlib

/-!
Formal model of the nested tracking-scope runtime in
`packages/react/runtime/src/index.ts`.

The runtime keeps one `EffectStore` per component/hook invocation slot.  A
process-wide register `currentStore` holds the innermost active store.  The
store's `_start`/`f` (finish) operations implement the usage-mode state
machine; `subscribe`/`getSnapshot` implement the host subscription adapter;
`ensureFinalCleanup` arms the deferred-reaper microtask and `useSignals` is
the hook entry point.

Stores are identified by natural numbers.  The `@preact/signals-core`
substrate is external to the repository; following its documented contract,
`effectInstance._start()` is modelled as: capture the current recording
context (`evalContext`), set it to this store's effect, and return a closer
that restores the captured context.  A read of a Reactive Source is recorded
by the effect held in `evalContext`, so `evalContext` is the attribution
target of a read at any instant.  The JavaScript `(x + 1) | 0` version bump
is modelled by `toInt32` on unbounded integers.
-/

/-- Usage modes of an effect store (the `UNMANAGED` / `MANAGED_COMPONENT` /
`MANAGED_HOOK` constants of the source). -/
inductive EffectStoreUsage where
  | UNMANAGED
  | MANAGED_COMPONENT
  | MANAGED_HOOK
deriving DecidableEq, Repr

/-- Signed 32-bit truncation, the semantics of JavaScript `| 0` on an
integral value. -/
def toInt32 (x : Int) : Int :=
  (x + 2147483648) % 4294967296 - 2147483648

/-- Per-store state: the closure variables of one `createEffectStore` call.
`onChangeNotifyReact` records whether a host callback is currently
registered (the callback itself is abstracted to its presence).
`endEffect = some e` means the store's effect is recording and its closer
will restore the recording context to `e`. -/
@[ext]
structure StoreState where
  usage : EffectStoreUsage
  version : Int
  onChangeNotifyReact : Bool
  doRestore : Bool
  prevStore : Option Nat
  endEffect : Option (Option Nat)
deriving Repr

/-- Closure state of a fresh `createEffectStore(_usage)` call. -/
def createEffectStore (u : EffectStoreUsage) : StoreState :=
  { usage := u
    version := 0
    onChangeNotifyReact := false
    doRestore := false
    prevStore := none
    endEffect := none }

/-- Store-local `subscribe(onStoreChange)`: register the host callback. -/
def subscribe (s : StoreState) : StoreState :=
  { s with onChangeNotifyReact := true }

/-- Store-local unsubscribe closure returned by `subscribe`: rotate to the
next version unconditionally and clear the registered callback. -/
def unsubscribe (s : StoreState) : StoreState :=
  { s with version := toInt32 (s.version + 1), onChangeNotifyReact := false }

/-- Store-local `effectInstance._callback`: bump the version with 32-bit
wraparound and notify the host callback when one is registered.  The
boolean result records whether the host callback was invoked during this
invocation. -/
def _callback (s : StoreState) : StoreState × Bool :=
  ({ s with version := toInt32 (s.version + 1) }, s.onChangeNotifyReact)

/-- Store-local `getSnapshot()`: return the current version. -/
def getSnapshot (s : StoreState) : Int :=
  s.version

/-- Global runtime state: all store closures, the scope stack register
`currentStore`, the substrate's recording context `evalContext`, and the
deferred-reaper bookkeeping (`finalCleanup` flag plus the number of queued
cleanup microtasks). -/
structure GState where
  stores : Nat → StoreState
  currentStore : Option Nat
  evalContext : Option Nat
  finalCleanup : Bool
  queuedCleanups : Nat

/-- Pointwise update of the store map. -/
def upd (sf : Nat → StoreState) (i : Nat) (s : StoreState) : Nat → StoreState :=
  fun j => if j = i then s else sf j

/-- Reset of the transient bookkeeping fields, as done at the end of `f()`. -/
def storeReset (s : StoreState) : StoreState :=
  { s with prevStore := none, endEffect := none, doRestore := false }

/-- The `f()` (finishEffect) method of store `i`: run `endEffect?.()`
(restoring the recording context captured at start, when recording), restore
`currentStore` to the saved previous store when `doRestore` is set, and
reset the transient fields. -/
def f (g : GState) (i : Nat) : GState :=
  { g with
    evalContext := ((g.stores i).endEffect).getD g.evalContext
    currentStore :=
      if (g.stores i).doRestore = true then (g.stores i).prevStore
      else g.currentStore
    stores := upd g.stores i (storeReset (g.stores i)) }

/-- The `_start()` method of store `i`, the scope-stack state machine of the
source: branch on `currentStore` and on the pair of usage modes, finishing
the previous store for two adjacent unmanaged-style invocations, doing
nothing when an unmanaged call is nested in a managed store, and saving the
previous store for restoration in every other nested case. -/
def _start (g : GState) (i : Nat) : GState :=
  match g.currentStore with
  | none =>
      { g with
        stores := upd g.stores i
          { g.stores i with
            doRestore := true, prevStore := none,
            endEffect := some g.evalContext }
        evalContext := some i
        currentStore := some i }
  | some c =>
      if ((g.stores c).usage = EffectStoreUsage.UNMANAGED ∧
            (g.stores i).usage = EffectStoreUsage.UNMANAGED) ∨
         ((g.stores c).usage = EffectStoreUsage.UNMANAGED ∧
            (g.stores i).usage = EffectStoreUsage.MANAGED_COMPONENT) then
        let g1 := f g c
        { g1 with
          stores := upd g1.stores i
            { g1.stores i with
              doRestore := true, prevStore := none,
              endEffect := some g1.evalContext }
          evalContext := some i
          currentStore := some i }
      else if ((g.stores c).usage = EffectStoreUsage.MANAGED_COMPONENT ∧
                 (g.stores i).usage = EffectStoreUsage.UNMANAGED) ∨
              ((g.stores c).usage = EffectStoreUsage.MANAGED_HOOK ∧
                 (g.stores i).usage = EffectStoreUsage.UNMANAGED) then
        g
      else
        { g with
          stores := upd g.stores i
            { g.stores i with
              doRestore := true, prevStore := g.currentStore,
              endEffect := some g.evalContext }
          evalContext := some i
          currentStore := some i }

/-- The `ensureFinalCleanup()` function: when no cleanup microtask is
pending, queue one and record it in `finalCleanup`. -/
def ensureFinalCleanup (g : GState) : GState :=
  if g.finalCleanup = true then g
  else { g with finalCleanup := true, queuedCleanups := g.queuedCleanups + 1 }

/-- The queued cleanup microtask firing: clear `finalCleanup`, consume the
queued task, and `currentStore?.f()`. -/
def finalCleanupTask (g : GState) : GState :=
  let g1 := { g with finalCleanup := false, queuedCleanups := g.queuedCleanups - 1 }
  match g1.currentStore with
  | some c => f g1 c
  | none => g1

/-- The `useSignals` hook entry point for an existing store `i`: arm the
deferred reaper, then start the store. -/
def useSignals (g : GState) (i : Nat) : GState :=
  _start (ensureFinalCleanup g) i

/-- Global view of a `_callback` firing on store `i` (recorded sources of
store `i` changed). -/
def fireCallback (g : GState) (i : Nat) : GState :=
  { g with stores := upd g.stores i (_callback (g.stores i)).1 }

/-- Global view of `subscribe` on store `i`. -/
def subscribeOp (g : GState) (i : Nat) : GState :=
  { g with stores := upd g.stores i (subscribe (g.stores i)) }

/-- Global view of the unsubscribe closure of store `i`. -/
def unsubscribeOp (g : GState) (i : Nat) : GState :=
  { g with stores := upd g.stores i (unsubscribe (g.stores i)) }

/-- Initial runtime state: every store slot holds a fresh store of the given
usage mode, no active scope, no recording, reaper disarmed. -/
def initialState (us : Nat → EffectStoreUsage) : GState :=
  { stores := fun j => createEffectStore (us j)
    currentStore := none
    evalContext := none
    finalCleanup := false
    queuedCleanups := 0 }

/-- Events of the runtime: the operations that mutate the global state. -/
inductive Op where
  | start (i : Nat)
  | finish (i : Nat)
  | useSignals (i : Nat)
  | fire (i : Nat)
  | subscribe (i : Nat)
  | unsub (i : Nat)
  | cleanup
deriving DecidableEq, Repr

/-- One step of the runtime. -/
def step (g : GState) : Op → GState
  | .start i => _start g i
  | .finish i => f g i
  | .useSignals i => useSignals g i
  | .fire i => fireCallback g i
  | .subscribe i => subscribeOp g i
  | .unsub i => unsubscribeOp g i
  | .cleanup => finalCleanupTask g

/-- Run a sequence of events. -/
def run (g : GState) : List Op → GState
  | [] => g
  | op :: ops => run (step g op) ops

/-- Transient bookkeeping of a store is in its reset state (fresh, or after
`f()`). -/
def isReset (s : StoreState) : Bool :=
  decide (s.doRestore = false ∧ s.prevStore = none ∧ s.endEffect = none)

/-- Permitted `_start` calls: starting is always permitted on an empty
register, under an unmanaged previous store for unmanaged/managed-component
newcomers (the sibling fold), and under a managed previous store for
unmanaged newcomers (the fold-in); re-entrant starts of a store that is
still tracking in a nested position are the caller error the spec leaves
undefined, so they are excluded. -/
def startOk (g : GState) (i : Nat) : Bool :=
  match g.currentStore with
  | none => true
  | some c =>
      decide (((g.stores c).usage = EffectStoreUsage.UNMANAGED ∧
          (g.stores i).usage = EffectStoreUsage.UNMANAGED) ∨
        ((g.stores c).usage = EffectStoreUsage.UNMANAGED ∧
          (g.stores i).usage = EffectStoreUsage.MANAGED_COMPONENT)) ||
      decide (((g.stores c).usage = EffectStoreUsage.MANAGED_COMPONENT ∧
          (g.stores i).usage = EffectStoreUsage.UNMANAGED) ∨
        ((g.stores c).usage = EffectStoreUsage.MANAGED_HOOK ∧
          (g.stores i).usage = EffectStoreUsage.UNMANAGED)) ||
      isReset (g.stores i)

/-- Permitted events in a given state: finishes target the active store or
are the no-op finish of a non-tracking store, and the cleanup microtask only
fires while queued. -/
def opOk (g : GState) : Op → Bool
  | .start i => startOk g i
  | .useSignals i => startOk (ensureFinalCleanup g) i
  | .finish i => decide (g.currentStore = some i) || isReset (g.stores i)
  | .cleanup => decide (0 < g.queuedCleanups)
  | _ => true

/-- A sequence of events each permitted in the state where it occurs. -/
def disciplined (g : GState) : List Op → Bool
  | [] => true
  | op :: ops => opOk g op && disciplined (step g op) ops

/-- Chain predicate: `stack` lists the active scope and, through the
`prevStore` links saved by `_start`, the scopes it displaced, innermost
first.  Every store on the chain is tracking (`doRestore` set, closer
captured), the closer of each store restores the recording context to the
store it displaced, and an unmanaged store can only sit at the bottom. -/
def chainInv (sf : Nat → StoreState) : List Nat → Option Nat → Prop
  | [], o => o = none
  | i :: rest, o =>
      o = some i ∧ (sf i).doRestore = true ∧
      (sf i).endEffect = some ((sf i).prevStore) ∧
      ((sf i).usage = EffectStoreUsage.UNMANAGED → (sf i).prevStore = none) ∧
      chainInv sf rest ((sf i).prevStore)

/-- Runtime invariant: the save/restore links form a duplicate-free stack
headed by the register, and the recording context (the attribution target
of a signal read) equals the register. -/
def RInv (g : GState) : Prop :=
  ∃ stack : List Nat, stack.Nodup ∧ chainInv g.stores stack g.currentStore ∧
    g.evalContext = g.currentStore

/-- Exact count of pending cleanup microtasks: one when `finalCleanup` is
set, zero otherwise. -/
def QInv (g : GState) : Prop :=
  g.queuedCleanups = if g.finalCleanup = true then 1 else 0

/-- Fixture: every slot unmanaged. -/
def usU : Nat → EffectStoreUsage := fun _ => EffectStoreUsage.UNMANAGED

/-- Fixture: every slot a managed component. -/
def usMC : Nat → EffectStoreUsage := fun _ => EffectStoreUsage.MANAGED_COMPONENT

/-- Fixture: slot 0 a managed component, the rest managed hooks. -/
def usNest : Nat → EffectStoreUsage :=
  fun j => if j = 0 then EffectStoreUsage.MANAGED_COMPONENT
    else EffectStoreUsage.MANAGED_HOOK

/-- Fixture: slot 0 a managed hook, the rest unmanaged. -/
def usMH : Nat → EffectStoreUsage :=
  fun j => if j = 0 then EffectStoreUsage.MANAGED_HOOK
    else EffectStoreUsage.UNMANAGED

lemma upd_same (sf : Nat → StoreState) (i : Nat) (s : StoreState) :
    upd sf i s i = s := by
  simp [upd]

lemma upd_other {i j : Nat} (h : j ≠ i) (sf : Nat → StoreState) (s : StoreState) :
    upd sf i s j = sf j := by
  simp [upd, h]

lemma upd_self (sf : Nat → StoreState) (i : Nat) : upd sf i (sf i) = sf := by
  funext j
  by_cases hj : j = i <;> simp [upd, hj]

lemma chainInv_congr {sf sf' : Nat → StoreState} :
    ∀ (stack : List Nat) (o : Option Nat),
      (∀ j ∈ stack, sf' j = sf j) → chainInv sf stack o → chainInv sf' stack o := by
  intro stack
  induction stack with
  | nil => intro o _ h; exact h
  | cons i rest ih =>
      intro o hag h
      simp only [chainInv] at h ⊢
      obtain ⟨ho, hd, he, hu, hrest⟩ := h
      have hi : sf' i = sf i := hag i (List.mem_cons_self _ _)
      rw [hi]
      exact ⟨ho, hd, he, hu, ih _ (fun j hj => hag j (List.mem_cons_of_mem _ hj)) hrest⟩

lemma chainInv_fieldsEq {sf sf' : Nat → StoreState}
    (hfld : ∀ j, (sf' j).doRestore = (sf j).doRestore ∧
      (sf' j).endEffect = (sf j).endEffect ∧
      (sf' j).prevStore = (sf j).prevStore ∧ (sf' j).usage = (sf j).usage) :
    ∀ (stack : List Nat) (o : Option Nat), chainInv sf stack o → chainInv sf' stack o := by
  intro stack
  induction stack with
  | nil => intro o h; exact h
  | cons i rest ih =>
      intro o h
      simp only [chainInv] at h ⊢
      obtain ⟨ho, hd, he, hu, hrest⟩ := h
      obtain ⟨f1, f2, f3, f4⟩ := hfld i
      rw [f1, f2, f3, f4]
      exact ⟨ho, hd, he, hu, ih _ hrest⟩

lemma chainInv_doRestore {sf : Nat → StoreState} :
    ∀ {stack : List Nat} {o : Option Nat}, chainInv sf stack o →
      ∀ {j : Nat}, j ∈ stack → (sf j).doRestore = true := by
  intro stack
  induction stack with
  | nil => intro o _ j hj; cases hj
  | cons i rest ih =>
      intro o h j hj
      simp only [chainInv] at h
      rcases List.mem_cons.mp hj with rfl | hj'
      · exact h.2.1
      · exact ih h.2.2.2.2 hj'

lemma storeReset_of_isReset {s : StoreState} (h : isReset s = true) :
    storeReset s = s := by
  simp only [isReset, decide_eq_true_eq] at h
  obtain ⟨h1, h2, h3⟩ := h
  cases s
  simp_all [storeReset]

lemma f_reset {g : GState} {i : Nat} (h : isReset (g.stores i) = true) :
    f g i = g := by
  have h' := h
  simp only [isReset, decide_eq_true_eq] at h'
  obtain ⟨h1, h2, h3⟩ := h'
  simp [f, h1, h3, storeReset_of_isReset h, upd_self]

lemma _start_none {g : GState} {i : Nat} (hc : g.currentStore = none) :
    _start g i = { g with
      stores := upd g.stores i
        { g.stores i with
          doRestore := true
          prevStore := none
          endEffect := some g.evalContext }
      evalContext := some i
      currentStore := some i } := by
  unfold _start
  rw [hc]

lemma _start_sibling {g : GState} {c i : Nat} (hc : g.currentStore = some c)
    (h1 : ((g.stores c).usage = EffectStoreUsage.UNMANAGED ∧
            (g.stores i).usage = EffectStoreUsage.UNMANAGED) ∨
          ((g.stores c).usage = EffectStoreUsage.UNMANAGED ∧
            (g.stores i).usage = EffectStoreUsage.MANAGED_COMPONENT)) :
    _start g i = { f g c with
      stores := upd (f g c).stores i
        { (f g c).stores i with
          doRestore := true
          prevStore := none
          endEffect := some ((f g c).evalContext) }
      evalContext := some i
      currentStore := some i } := by
  unfold _start
  rw [hc]
  simp only [if_pos h1]

lemma _start_fold {g : GState} {c i : Nat} (hc : g.currentStore = some c)
    (h1 : ¬ (((g.stores c).usage = EffectStoreUsage.UNMANAGED ∧
            (g.stores i).usage = EffectStoreUsage.UNMANAGED) ∨
          ((g.stores c).usage = EffectStoreUsage.UNMANAGED ∧
            (g.stores i).usage = EffectStoreUsage.MANAGED_COMPONENT)))
    (h2 : ((g.stores c).usage = EffectStoreUsage.MANAGED_COMPONENT ∧
            (g.stores i).usage = EffectStoreUsage.UNMANAGED) ∨
          ((g.stores c).usage = EffectStoreUsage.MANAGED_HOOK ∧
            (g.stores i).usage = EffectStoreUsage.UNMANAGED)) :
    _start g i = g := by
  unfold _start
  rw [hc]
  simp only [if_neg h1, if_pos h2]

lemma _start_nested {g : GState} {c i : Nat} (hc : g.currentStore = some c)
    (h1 : ¬ (((g.stores c).usage = EffectStoreUsage.UNMANAGED ∧
            (g.stores i).usage = EffectStoreUsage.UNMANAGED) ∨
          ((g.stores c).usage = EffectStoreUsage.UNMANAGED ∧
            (g.stores i).usage = EffectStoreUsage.MANAGED_COMPONENT)))
    (h2 : ¬ (((g.stores c).usage = EffectStoreUsage.MANAGED_COMPONENT ∧
            (g.stores i).usage = EffectStoreUsage.UNMANAGED) ∨
          ((g.stores c).usage = EffectStoreUsage.MANAGED_HOOK ∧
            (g.stores i).usage = EffectStoreUsage.UNMANAGED))) :
    _start g i = { g with
      stores := upd g.stores i
        { g.stores i with
          doRestore := true
          prevStore := some c
          endEffect := some g.evalContext }
      evalContext := some i
      currentStore := some i } := by
  unfold _start
  rw [hc]
  simp only [if_neg h1, if_neg h2]

lemma f_spec {g : GState} {i : Nat}
    (hd : (g.stores i).doRestore = true)
    (he : (g.stores i).endEffect = some ((g.stores i).prevStore)) :
    f g i = { g with
      evalContext := (g.stores i).prevStore
      currentStore := (g.stores i).prevStore
      stores := upd g.stores i (storeReset (g.stores i)) } := by
  simp [f, hd, he]

lemma inv_start {g : GState} {i : Nat} (hok : startOk g i = true)
    (hinv : RInv g) : RInv (_start g i) := by
  obtain ⟨stack, nd, hchain, hev⟩ := hinv
  cases hc : g.currentStore with
  | none =>
      rw [hc] at hev
      rw [_start_none hc]
      refine ⟨[i], List.nodup_singleton i, ?_, rfl⟩
      simp [chainInv, upd_same, hev]
  | some c =>
      rw [hc] at hchain hev
      cases stack with
      | nil => simp [chainInv] at hchain
      | cons a rest =>
          simp only [chainInv] at hchain
          obtain ⟨ha, hd, he, hu, hrest⟩ := hchain
          obtain rfl : c = a := Option.some.inj ha
          by_cases h1 : ((g.stores c).usage = EffectStoreUsage.UNMANAGED ∧
                (g.stores i).usage = EffectStoreUsage.UNMANAGED) ∨
              ((g.stores c).usage = EffectStoreUsage.UNMANAGED ∧
                (g.stores i).usage = EffectStoreUsage.MANAGED_COMPONENT)
          · have hcu : (g.stores c).usage = EffectStoreUsage.UNMANAGED := by
              rcases h1 with ⟨h, _⟩ | ⟨h, _⟩ <;> exact h
            have hp : (g.stores c).prevStore = none := hu hcu
            have hfc : f g c = { g with
                evalContext := (g.stores c).prevStore
                currentStore := (g.stores c).prevStore
                stores := upd g.stores c (storeReset (g.stores c)) } :=
              f_spec hd he
            rw [_start_sibling hc h1]
            refine ⟨[i], List.nodup_singleton i, ?_, rfl⟩
            simp [chainInv, upd_same, hfc, hp]
          · by_cases h2 : ((g.stores c).usage = EffectStoreUsage.MANAGED_COMPONENT ∧
                  (g.stores i).usage = EffectStoreUsage.UNMANAGED) ∨
                ((g.stores c).usage = EffectStoreUsage.MANAGED_HOOK ∧
                  (g.stores i).usage = EffectStoreUsage.UNMANAGED)
            · rw [_start_fold hc h1 h2]
              exact ⟨c :: rest, nd, by rw [hc]; exact ⟨rfl, hd, he, hu, hrest⟩, by rw [hc]; exact hev⟩
            · have hreset : isReset (g.stores i) = true := by
                simp only [startOk, hc, Bool.or_eq_true, decide_eq_true_eq] at hok
                rcases hok with (h | h) | h
                · exact absurd h h1
                · exact absurd h h2
                · exact h
              have hdi : (g.stores i).doRestore = false := by
                simp only [isReset, decide_eq_true_eq] at hreset
                exact hreset.1
              have hch : chainInv g.stores (c :: rest) (some c) :=
                ⟨rfl, hd, he, hu, hrest⟩
              have hmem : i ∉ c :: rest := by
                intro hm
                have := chainInv_doRestore hch hm
                rw [hdi] at this
                exact Bool.false_ne_true this
              have hiu : (g.stores i).usage ≠ EffectStoreUsage.UNMANAGED := by
                intro hU
                cases hcu : (g.stores c).usage
                · exact h1 (Or.inl ⟨hcu, hU⟩)
                · exact h2 (Or.inl ⟨hcu, hU⟩)
                · exact h2 (Or.inr ⟨hcu, hU⟩)
              rw [_start_nested hc h1 h2]
              refine ⟨i :: c :: rest, List.nodup_cons.mpr ⟨hmem, nd⟩, ?_, rfl⟩
              refine ⟨rfl, ?_, ?_, ?_, ?_⟩
              · dsimp only
                rw [upd_same]
              · dsimp only
                rw [upd_same, hev]
              · dsimp only
                rw [upd_same]
                intro hU
                exact absurd hU hiu
              · dsimp only
                rw [upd_same]
                exact chainInv_congr _ _
                  (fun j hj => upd_other (fun hji => hmem (by rw [← hji]; exact hj)) _ _) hch

lemma inv_f {g : GState} {i : Nat}
    (hok : (decide (g.currentStore = some i) || isReset (g.stores i)) = true)
    (hinv : RInv g) : RInv (f g i) := by
  simp only [Bool.or_eq_true, decide_eq_true_eq] at hok
  rcases hok with hc | hres
  · obtain ⟨stack, nd, hchain, hev⟩ := hinv
    rw [hc] at hchain
    cases stack with
    | nil => simp [chainInv] at hchain
    | cons a rest =>
        simp only [chainInv] at hchain
        obtain ⟨ha, hd, he, hu, hrest⟩ := hchain
        obtain rfl : i = a := Option.some.inj ha
        rw [f_spec hd he]
        obtain ⟨hna, ndr⟩ := List.nodup_cons.mp nd
        refine ⟨rest, ndr, ?_, rfl⟩
        exact chainInv_congr _ _
          (fun j hj => upd_other (fun hji => hna (by rw [← hji]; exact hj)) _ _) hrest
  · rw [f_reset hres]
    exact hinv

lemma inv_ensure {g : GState} (hinv : RInv g) : RInv (ensureFinalCleanup g) := by
  obtain ⟨stack, nd, hchain, hev⟩ := hinv
  unfold ensureFinalCleanup
  split
  · exact ⟨stack, nd, hchain, hev⟩
  · exact ⟨stack, nd, hchain, hev⟩

lemma inv_finalCleanupTask {g : GState} (hinv : RInv g) : RInv (finalCleanupTask g) := by
  obtain ⟨stack, nd, hchain, hev⟩ := hinv
  unfold finalCleanupTask
  dsimp only
  cases hc : g.currentStore with
  | none =>
      rw [hc] at hchain hev
      exact ⟨stack, nd, hchain, hev⟩
  | some c =>
      rw [hc] at hchain hev
      exact inv_f (i := c) (by simp) ⟨stack, nd, hchain, hev⟩

lemma inv_step {g : GState} {op : Op} (hok : opOk g op = true) (hinv : RInv g) :
    RInv (step g op) := by
  cases op with
  | start i => exact inv_start hok hinv
  | finish i => exact inv_f hok hinv
  | useSignals i => exact inv_start hok (inv_ensure hinv)
  | fire i =>
      obtain ⟨stack, nd, hchain, hev⟩ := hinv
      refine ⟨stack, nd, ?_, hev⟩
      refine chainInv_fieldsEq (fun j => ?_) _ _ hchain
      by_cases hj : j = i <;> simp [step, fireCallback, upd, hj, _callback]
  | subscribe i =>
      obtain ⟨stack, nd, hchain, hev⟩ := hinv
      refine ⟨stack, nd, ?_, hev⟩
      refine chainInv_fieldsEq (fun j => ?_) _ _ hchain
      by_cases hj : j = i <;> simp [step, subscribeOp, upd, hj, subscribe]
  | unsub i =>
      obtain ⟨stack, nd, hchain, hev⟩ := hinv
      refine ⟨stack, nd, ?_, hev⟩
      refine chainInv_fieldsEq (fun j => ?_) _ _ hchain
      by_cases hj : j = i <;> simp [step, unsubscribeOp, upd, hj, unsubscribe]
  | cleanup => exact inv_finalCleanupTask hinv

lemma inv_run {ops : List Op} : ∀ {g : GState},
    disciplined g ops = true → RInv g → RInv (run g ops) := by
  induction ops with
  | nil => intro g _ hinv; exact hinv
  | cons op ops ih =>
      intro g hd hinv
      simp only [disciplined, Bool.and_eq_true] at hd
      exact ih hd.2 (inv_step hd.1 hinv)

lemma inv_initialState (us : Nat → EffectStoreUsage) : RInv (initialState us) :=
  ⟨[], List.nodup_nil, rfl, rfl⟩

lemma _start_finalCleanup (g : GState) (i : Nat) :
    (_start g i).finalCleanup = g.finalCleanup := by
  unfold _start
  cases g.currentStore with
  | none => rfl
  | some c =>
      dsimp only
      split_ifs <;> rfl

lemma _start_queuedCleanups (g : GState) (i : Nat) :
    (_start g i).queuedCleanups = g.queuedCleanups := by
  unfold _start
  cases g.currentStore with
  | none => rfl
  | some c =>
      dsimp only
      split_ifs <;> rfl

lemma finalCleanupTask_finalCleanup (g : GState) :
    (finalCleanupTask g).finalCleanup = false := by
  unfold finalCleanupTask
  dsimp only
  cases g.currentStore <;> rfl

lemma finalCleanupTask_queuedCleanups (g : GState) :
    (finalCleanupTask g).queuedCleanups = g.queuedCleanups - 1 := by
  unfold finalCleanupTask
  dsimp only
  cases g.currentStore <;> rfl

lemma qinv_ensure {g : GState} (h : QInv g) : QInv (ensureFinalCleanup g) := by
  unfold QInv ensureFinalCleanup at *
  by_cases hb : g.finalCleanup = true <;> simp [hb] at h ⊢ <;> omega

lemma qinv_step {g : GState} {op : Op} (hok : opOk g op = true) (h : QInv g) :
    QInv (step g op) := by
  cases op with
  | start i =>
      show QInv (_start g i)
      unfold QInv
      rw [_start_finalCleanup, _start_queuedCleanups]
      exact h
  | finish i => exact h
  | useSignals i =>
      show QInv (_start (ensureFinalCleanup g) i)
      unfold QInv
      rw [_start_finalCleanup, _start_queuedCleanups]
      exact qinv_ensure h
  | fire i => exact h
  | subscribe i => exact h
  | unsub i => exact h
  | cleanup =>
      show QInv (finalCleanupTask g)
      have hq : 0 < g.queuedCleanups := of_decide_eq_true hok
      unfold QInv
      rw [finalCleanupTask_finalCleanup, finalCleanupTask_queuedCleanups]
      unfold QInv at h
      by_cases hb : g.finalCleanup = true <;> simp [hb] at h ⊢ <;> omega

lemma qinv_run {ops : List Op} : ∀ {g : GState},
    disciplined g ops = true → QInv g → QInv (run g ops) := by
  induction ops with
  | nil => intro g _ h; exact h
  | cons op ops ih =>
      intro g hd h
      simp only [disciplined, Bool.and_eq_true] at hd
      exact ih hd.2 (qinv_step hd.1 h)

lemma upd_version (sf : Nat → StoreState) (j : Nat) (s : StoreState)
    (hs : s.version = (sf j).version) (i : Nat) :
    ((upd sf j s) i).version = (sf i).version := by
  unfold upd
  by_cases hij : i = j
  · subst hij
    simp [hs]
  · simp [hij]

lemma f_stores_version (g : GState) (c i : Nat) :
    ((f g c).stores i).version = (g.stores i).version := by
  show ((upd g.stores c (storeReset (g.stores c))) i).version = _
  exact upd_version g.stores c (storeReset (g.stores c)) rfl i

lemma _start_stores_version (g : GState) (j i : Nat) :
    ((_start g j).stores i).version = (g.stores i).version := by
  unfold _start
  cases g.currentStore with
  | none =>
      dsimp only
      exact upd_version _ _ _ (by rfl) i
  | some c =>
      dsimp only
      split_ifs
      · dsimp only
        calc ((upd (f g c).stores j _) i).version
            = ((f g c).stores i).version := upd_version _ _ _ (by rfl) i
          _ = (g.stores i).version := f_stores_version g c i
      · rfl
      · dsimp only
        exact upd_version _ _ _ (by rfl) i

lemma step_version {g : GState} {op : Op} {i : Nat}
    (h1 : op ≠ Op.fire i) (h2 : op ≠ Op.unsub i) :
    ((step g op).stores i).version = (g.stores i).version := by
  cases op with
  | start j => exact _start_stores_version g j i
  | finish j => exact f_stores_version g j i
  | useSignals j =>
      show ((_start (ensureFinalCleanup g) j).stores i).version = _
      rw [_start_stores_version]
      unfold ensureFinalCleanup
      split <;> rfl
  | fire j =>
      have hij : j ≠ i := fun h => h1 (by rw [h])
      show ((upd g.stores j (_callback (g.stores j)).1) i).version = _
      rw [upd_other (fun h => hij h.symm) _ _]
  | subscribe j =>
      show ((upd g.stores j (subscribe (g.stores j))) i).version = _
      exact upd_version _ _ _ (by rfl) i
  | unsub j =>
      have hij : j ≠ i := fun h => h2 (by rw [h])
      show ((upd g.stores j (unsubscribe (g.stores j))) i).version = _
      rw [upd_other (fun h => hij h.symm) _ _]
  | cleanup =>
      show ((finalCleanupTask g).stores i).version = _
      unfold finalCleanupTask
      dsimp only
      cases g.currentStore with
      | none => rfl
      | some c => exact f_stores_version _ c i

lemma run_version {i : Nat} : ∀ (ops : List Op) (g : GState),
    Op.fire i ∉ ops → Op.unsub i ∉ ops →
    ((run g ops).stores i).version = (g.stores i).version := by
  intro ops
  induction ops with
  | nil => intro g _ _; rfl
  | cons op ops ih =>
      intro g hf hu
      have hf1 : op ≠ Op.fire i := fun h => hf (by rw [h]; exact List.mem_cons_self _ _)
      have hu1 : op ≠ Op.unsub i := fun h => hu (by rw [h]; exact List.mem_cons_self _ _)
      have hf2 : Op.fire i ∉ ops := fun h => hf (List.mem_cons_of_mem _ h)
      have hu2 : Op.unsub i ∉ ops := fun h => hu (List.mem_cons_of_mem _ h)
      show ((run (step g op) ops).stores i).version = _
      rw [ih (step g op) hf2 hu2]
      exact step_version hf1 hu1

/-- C6: the unsubscribe closure returned by `subscribe` increments the
version (mod 2^32) unconditionally and clears the registered callback, so
after subscribe, unsubscribe, and subscribe again with no intervening
source mutation, `getSnapshot` returns a value different from the one seen
just before unsubscribing. -/
theorem unsubscribe_bumps_version_resubscribe_changes_snapshot (s : StoreState) :
    (unsubscribe s).version = toInt32 (s.version + 1) ∧
    (unsubscribe s).onChangeNotifyReact = false ∧
    getSnapshot (subscribe (unsubscribe (subscribe s))) ≠ getSnapshot (subscribe s) := by
  refine ⟨rfl, rfl, ?_⟩
  show toInt32 (s.version + 1) ≠ s.version
  unfold toInt32
  omega

/-- C7: each invocation of the Tracking Effect callback `_callback`
increments the store version by one with signed 32-bit wraparound and
invokes the registered host callback within the same invocation exactly
when one is registered. -/
theorem callback_bumps_version_notifies_iff_registered (s : StoreState) :
    (_callback s).1.version = toInt32 (s.version + 1) ∧
    (_callback s).1.version % 4294967296 = (s.version + 1) % 4294967296 ∧
    ((_callback s).2 = true ↔ s.onChangeNotifyReact = true) := by
  refine ⟨rfl, ?_, Iff.rfl⟩
  show toInt32 (s.version + 1) % 4294967296 = (s.version + 1) % 4294967296
  unfold toInt32
  omega

/-- C8 counterexample: the snapshot changes across an unsubscribe although
no Tracking Effect callback fired, refuting the claim that the snapshot
never changes between two reads with no notification in between. -/
theorem snapshot_changes_without_notification_on_unsubscribe :
    getSnapshot ((run (initialState usU) [Op.subscribe 0, Op.unsub 0]).stores 0) ≠
      getSnapshot ((initialState usU).stores 0) ∧
    Op.fire 0 ∉ [Op.subscribe 0, Op.unsub 0] := by
  constructor
  · decide
  · decide

/-- C8 (amended): the value returned by `getSnapshot` strictly changes
(mod 2^32) across every firing of the Tracking Effect callback, and it
never changes between two `getSnapshot` calls when neither a notification
nor an unsubscribe occurred in between. -/
theorem snapshot_changes_on_fire_stable_otherwise :
    (∀ (g : GState) (i : Nat),
      getSnapshot ((fireCallback g i).stores i) % 4294967296 ≠
        getSnapshot (g.stores i) % 4294967296) ∧
    (∀ (g : GState) (ops : List Op) (i : Nat),
      Op.fire i ∉ ops → Op.unsub i ∉ ops →
      getSnapshot ((run g ops).stores i) = getSnapshot (g.stores i)) := by
  constructor
  · intro g i
    show getSnapshot ((upd g.stores i (_callback (g.stores i)).1) i) % 4294967296 ≠ _
    rw [upd_same]
    show toInt32 ((g.stores i).version + 1) % 4294967296 ≠
      (g.stores i).version % 4294967296
    unfold toInt32
    omega
  · intro g ops i hf hu
    exact run_version ops g hf hu

/-- C8 witness for the amended claim at a concrete input. -/
theorem snapshot_change_stability_witness :
    Op.fire 0 ∉ [Op.start 0] ∧ Op.unsub 0 ∉ [Op.start 0] ∧
    getSnapshot ((fireCallback (initialState usU) 0).stores 0) % 4294967296 ≠
      getSnapshot ((initialState usU).stores 0) % 4294967296 ∧
    getSnapshot ((run (initialState usU) [Op.start 0]).stores 0) =
      getSnapshot ((initialState usU).stores 0) :=
  ⟨by decide, by decide,
   snapshot_changes_on_fire_stable_otherwise.1 (initialState usU) 0,
   snapshot_changes_on_fire_stable_otherwise.2 (initialState usU) [Op.start 0] 0
     (by decide) (by decide)⟩

/-- C9: calling `f()` without a preceding `_start()` leaves the register
and the store state unchanged, and a second `f()` after a first one has no
additional effect beyond the first call. -/
theorem finish_noop_without_start_and_idempotent :
    (∀ (g : GState) (i : Nat), isReset (g.stores i) = true → f g i = g) ∧
    (∀ (g : GState) (i : Nat), f (f g i) i = f g i) := by
  constructor
  · intro g i h
    exact f_reset h
  · intro g i
    apply f_reset
    show isReset ((upd g.stores i (storeReset (g.stores i))) i) = true
    rw [upd_same]
    simp [isReset, storeReset]

/-- C9 witness: the no-op and idempotence facts at a concrete store. -/
theorem finish_noop_witness :
    isReset ((initialState usU).stores 0) = true ∧
    f (initialState usU) 0 = initialState usU ∧
    f (f (initialState usU) 0) 0 = f (initialState usU) 0 :=
  ⟨by decide,
   finish_noop_without_start_and_idempotent.1 (initialState usU) 0 (by decide),
   finish_noop_without_start_and_idempotent.2 (initialState usU) 0⟩

/-- C10: a freshly created effect store snapshots to 0, and its version
stays 0 under any event sequence containing no callback firing and no
unsubscribe for that store. -/
theorem fresh_store_snapshot_zero_until_fire_or_unsub :
    (∀ u : EffectStoreUsage, getSnapshot (createEffectStore u) = 0) ∧
    (∀ (us : Nat → EffectStoreUsage) (ops : List Op) (i : Nat),
      Op.fire i ∉ ops → Op.unsub i ∉ ops →
      getSnapshot ((run (initialState us) ops).stores i) = 0) := by
  constructor
  · intro u
    rfl
  · intro us ops i hf hu
    show ((run (initialState us) ops).stores i).version = 0
    rw [run_version ops (initialState us) hf hu]
    rfl

/-- C10 witness: the zero-snapshot facts at a concrete store and trace. -/
theorem fresh_store_snapshot_witness :
    getSnapshot (createEffectStore EffectStoreUsage.UNMANAGED) = 0 ∧
    Op.fire 0 ∉ [Op.start 0, Op.subscribe 0] ∧
    getSnapshot ((run (initialState usU) [Op.start 0, Op.subscribe 0]).stores 0) = 0 :=
  ⟨fresh_store_snapshot_zero_until_fire_or_unsub.1 EffectStoreUsage.UNMANAGED,
   by decide,
   fresh_store_snapshot_zero_until_fire_or_unsub.2 usU [Op.start 0, Op.subscribe 0] 0
     (by decide) (by decide)⟩

/-- C2: for every usage-mode pair other than the two sibling folds and the
two fold-ins, starting scope `N` while `C` is active saves `C` and makes
`N` active, `N`'s finish stops `N`'s tracking (restoring the recording
context captured at start) and reinstates `C`, and a finish of a scope
whose start recorded no saved previous scope leaves the register empty. -/
theorem nested_start_saves_and_finish_restores (g : GState) (c i : Nat)
    (hc : g.currentStore = some c)
    (hpair : ¬ (((g.stores c).usage = EffectStoreUsage.UNMANAGED ∧
          (g.stores i).usage = EffectStoreUsage.UNMANAGED) ∨
        ((g.stores c).usage = EffectStoreUsage.UNMANAGED ∧
          (g.stores i).usage = EffectStoreUsage.MANAGED_COMPONENT) ∨
        ((g.stores c).usage = EffectStoreUsage.MANAGED_COMPONENT ∧
          (g.stores i).usage = EffectStoreUsage.UNMANAGED) ∨
        ((g.stores c).usage = EffectStoreUsage.MANAGED_HOOK ∧
          (g.stores i).usage = EffectStoreUsage.UNMANAGED))) :
    ((_start g i).currentStore = some i ∧
     ((_start g i).stores i).doRestore = true ∧
     ((_start g i).stores i).prevStore = some c ∧
     ((_start g i).stores i).endEffect = some g.evalContext) ∧
    (∀ (h : GState) (e : Option Nat), (h.stores i).doRestore = true →
      (h.stores i).prevStore = some c → (h.stores i).endEffect = some e →
      (f h i).currentStore = some c ∧ (f h i).evalContext = e ∧
        isReset ((f h i).stores i) = true) ∧
    (∀ h : GState, (h.stores i).doRestore = true → (h.stores i).prevStore = none →
      (f h i).currentStore = none) := by
  have h1 : ¬ (((g.stores c).usage = EffectStoreUsage.UNMANAGED ∧
        (g.stores i).usage = EffectStoreUsage.UNMANAGED) ∨
      ((g.stores c).usage = EffectStoreUsage.UNMANAGED ∧
        (g.stores i).usage = EffectStoreUsage.MANAGED_COMPONENT)) := by
    rintro (h | h)
    · exact hpair (Or.inl h)
    · exact hpair (Or.inr (Or.inl h))
  have h2 : ¬ (((g.stores c).usage = EffectStoreUsage.MANAGED_COMPONENT ∧
        (g.stores i).usage = EffectStoreUsage.UNMANAGED) ∨
      ((g.stores c).usage = EffectStoreUsage.MANAGED_HOOK ∧
        (g.stores i).usage = EffectStoreUsage.UNMANAGED)) := by
    rintro (h | h)
    · exact hpair (Or.inr (Or.inr (Or.inl h)))
    · exact hpair (Or.inr (Or.inr (Or.inr h)))
  refine ⟨?_, ?_, ?_⟩
  · rw [_start_nested hc h1 h2]
    refine ⟨rfl, ?_, ?_, ?_⟩ <;> (dsimp only; rw [upd_same])
  · intro h e hd hp he
    refine ⟨?_, ?_, ?_⟩
    · show (if (h.stores i).doRestore = true then (h.stores i).prevStore
        else h.currentStore) = some c
      rw [if_pos hd, hp]
    · show ((h.stores i).endEffect).getD h.evalContext = e
      rw [he]
      rfl
    · show isReset ((upd h.stores i (storeReset (h.stores i))) i) = true
      rw [upd_same]
      simp [isReset, storeReset]
  · intro h hd hp
    show (if (h.stores i).doRestore = true then (h.stores i).prevStore
      else h.currentStore) = none
    rw [if_pos hd, hp]

/-- C2 witness: a managed hook starting inside a managed component, then
finishing, at concrete stores. -/
theorem nested_start_finish_witness :
    ((_start (_start (initialState usNest) 0) 1).currentStore = some 1 ∧
     ((_start (_start (initialState usNest) 0) 1).stores 1).doRestore = true ∧
     ((_start (_start (initialState usNest) 0) 1).stores 1).prevStore = some 0 ∧
     ((_start (_start (initialState usNest) 0) 1).stores 1).endEffect =
       some (_start (initialState usNest) 0).evalContext) ∧
    ((f (_start (_start (initialState usNest) 0) 1) 1).currentStore = some 0 ∧
     (f (_start (_start (initialState usNest) 0) 1) 1).evalContext = some 0 ∧
     isReset ((f (_start (_start (initialState usNest) 0) 1) 1).stores 1) = true) ∧
    (f (_start (initialState usNest) 1) 1).currentStore = none := by
  have h := nested_start_saves_and_finish_restores (_start (initialState usNest) 0) 0 1
    (by decide) (by decide)
  exact ⟨h.1,
    h.2.1 (_start (_start (initialState usNest) 0) 1) (some 0)
      (by decide) (by decide) (by decide),
    h.2.2 (_start (initialState usNest) 1) (by decide) (by decide)⟩

/-- C3: when a new scope of Unmanaged or ManagedComponent mode starts while
an Unmanaged scope is active, the active scope is finished before the new
one begins tracking (the start factors through `f` on the previous scope,
which empties the register), the new scope records no saved previous scope,
and the single-slot register moves from the old scope through empty to the
new scope with never two scopes active. -/
theorem unmanaged_sibling_finished_before_new_start (g : GState) (c i : Nat)
    (hc : g.currentStore = some c) (hne : i ≠ c)
    (hcu : (g.stores c).usage = EffectStoreUsage.UNMANAGED)
    (hiu : (g.stores i).usage = EffectStoreUsage.UNMANAGED ∨
           (g.stores i).usage = EffectStoreUsage.MANAGED_COMPONENT)
    (hd : (g.stores c).doRestore = true)
    (hp : (g.stores c).prevStore = none) :
    _start g i = _start (f g c) i ∧
    (f g c).currentStore = none ∧
    (_start g i).currentStore = some i ∧
    ((_start g i).stores i).prevStore = none ∧
    ((_start g i).stores i).doRestore = true ∧
    isReset ((_start g i).stores c) = true := by
  have h1 : ((g.stores c).usage = EffectStoreUsage.UNMANAGED ∧
        (g.stores i).usage = EffectStoreUsage.UNMANAGED) ∨
      ((g.stores c).usage = EffectStoreUsage.UNMANAGED ∧
        (g.stores i).usage = EffectStoreUsage.MANAGED_COMPONENT) := by
    rcases hiu with h | h
    · exact Or.inl ⟨hcu, h⟩
    · exact Or.inr ⟨hcu, h⟩
  have hfcur : (f g c).currentStore = none := by
    show (if (g.stores c).doRestore = true then (g.stores c).prevStore
      else g.currentStore) = none
    rw [if_pos hd, hp]
  have hsib := _start_sibling hc h1
  refine ⟨?_, hfcur, ?_, ?_, ?_, ?_⟩
  · rw [hsib, _start_none hfcur]
  · rw [hsib]
  · rw [hsib]
    dsimp only
    rw [upd_same]
  · rw [hsib]
    dsimp only
    rw [upd_same]
  · rw [hsib]
    dsimp only
    rw [upd_other (Ne.symm hne) _ _]
    show isReset ((upd g.stores c (storeReset (g.stores c))) c) = true
    rw [upd_same]
    simp [isReset, storeReset]

/-- C3 witness: two sibling unmanaged starts at concrete stores. -/
theorem unmanaged_sibling_witness :
    _start (_start (initialState usU) 0) 1 = _start (f (_start (initialState usU) 0) 0) 1 ∧
    (f (_start (initialState usU) 0) 0).currentStore = none ∧
    (_start (_start (initialState usU) 0) 1).currentStore = some 1 ∧
    ((_start (_start (initialState usU) 0) 1).stores 1).prevStore = none ∧
    ((_start (_start (initialState usU) 0) 1).stores 1).doRestore = true ∧
    isReset ((_start (_start (initialState usU) 0) 1).stores 0) = true :=
  unmanaged_sibling_finished_before_new_start (_start (initialState usU) 0) 0 1
    (by decide) (by decide) (by decide) (Or.inl (by decide)) (by decide) (by decide)

/-- C4: starting an Unmanaged scope while a ManagedComponent or ManagedHook
scope is active changes nothing at all (the managed scope stays active and
the new scope never begins tracking), and a finish on a scope whose
bookkeeping is still reset, as the unmanaged scope's is after this start,
alters neither the register nor any tracking. -/
theorem unmanaged_folds_into_managed_parent (g : GState) (c i : Nat)
    (hc : g.currentStore = some c)
    (hcu : (g.stores c).usage = EffectStoreUsage.MANAGED_COMPONENT ∨
           (g.stores c).usage = EffectStoreUsage.MANAGED_HOOK)
    (hiu : (g.stores i).usage = EffectStoreUsage.UNMANAGED) :
    _start g i = g ∧
    (∀ h : GState, isReset (h.stores i) = true → f h i = h) := by
  have h1 : ¬ (((g.stores c).usage = EffectStoreUsage.UNMANAGED ∧
        (g.stores i).usage = EffectStoreUsage.UNMANAGED) ∨
      ((g.stores c).usage = EffectStoreUsage.UNMANAGED ∧
        (g.stores i).usage = EffectStoreUsage.MANAGED_COMPONENT)) := by
    rintro (⟨h, _⟩ | ⟨h, _⟩) <;> rcases hcu with hx | hx <;> rw [hx] at h <;>
      exact absurd h (by decide)
  have h2 : ((g.stores c).usage = EffectStoreUsage.MANAGED_COMPONENT ∧
        (g.stores i).usage = EffectStoreUsage.UNMANAGED) ∨
      ((g.stores c).usage = EffectStoreUsage.MANAGED_HOOK ∧
        (g.stores i).usage = EffectStoreUsage.UNMANAGED) := by
    rcases hcu with hx | hx
    · exact Or.inl ⟨hx, hiu⟩
    · exact Or.inr ⟨hx, hiu⟩
  refine ⟨_start_fold hc h1 h2, ?_⟩
  intro h hres
  exact f_reset hres

/-- C4 witness: an unmanaged start under a managed hook at concrete
stores. -/
theorem unmanaged_fold_witness :
    _start (_start (initialState usMH) 0) 1 = _start (initialState usMH) 0 ∧
    f (_start (initialState usMH) 0) 1 = _start (initialState usMH) 0 := by
  have h := unmanaged_folds_into_managed_parent (_start (initialState usMH) 0) 0 1
    (by decide) (Or.inr (by decide)) (by decide)
  exact ⟨h.1, h.2 (_start (initialState usMH) 0) (by decide)⟩

/-- C1: along every permitted sequence of start/finish (and other runtime)
events, the recording context — the effect to which a Reactive Source read
performed at that moment is attributed — always equals the scope held in
the register `currentStore`, so a read is attributed to exactly the active
scope (in the fold-in case that is the managed parent holding the
register); moreover the saved-previous-scope links form a duplicate-free
stack headed by the register whose entries restore one another in
last-in-first-out order. -/
theorem reads_attributed_to_register_lifo (us : Nat → EffectStoreUsage)
    (ops : List Op) (hdc : disciplined (initialState us) ops = true) :
    (run (initialState us) ops).evalContext = (run (initialState us) ops).currentStore ∧
    ∃ stack : List Nat, stack.Nodup ∧
      chainInv (run (initialState us) ops).stores stack
        (run (initialState us) ops).currentStore := by
  obtain ⟨stack, nd, hchain, hev⟩ := inv_run hdc (inv_initialState us)
  exact ⟨hev, stack, nd, hchain⟩

/-- C1 witness: a nested managed trace at concrete stores. -/
theorem reads_attribution_witness :
    disciplined (initialState usMC)
      [Op.useSignals 0, Op.start 1, Op.finish 1, Op.finish 0] = true ∧
    ((run (initialState usMC)
        [Op.useSignals 0, Op.start 1, Op.finish 1, Op.finish 0]).evalContext =
      (run (initialState usMC)
        [Op.useSignals 0, Op.start 1, Op.finish 1, Op.finish 0]).currentStore ∧
    ∃ stack : List Nat, stack.Nodup ∧
      chainInv (run (initialState usMC)
          [Op.useSignals 0, Op.start 1, Op.finish 1, Op.finish 0]).stores stack
        (run (initialState usMC)
          [Op.useSignals 0, Op.start 1, Op.finish 1, Op.finish 0]).currentStore) :=
  ⟨by decide,
   reads_attributed_to_register_lifo usMC
     [Op.useSignals 0, Op.start 1, Op.finish 1, Op.finish 0] (by decide)⟩

/-- C5 counterexample: a ManagedComponent `useSignals` call arms the
deferred-reaper microtask although no Unmanaged-mode scope was ever
started, refuting the claim that only Unmanaged starts arm or rearm it. -/
theorem reaper_armed_by_managed_call :
    (initialState usMC).finalCleanup = false ∧
    ((initialState usMC).stores 0).usage = EffectStoreUsage.MANAGED_COMPONENT ∧
    (useSignals (initialState usMC) 0).finalCleanup = true := by
  refine ⟨rfl, rfl, ?_⟩
  decide

/-- C5 (amended): the deferred-reaper microtask is armed by the first
`useSignals` call of a synchronous turn regardless of usage mode and
rearmed by the next `useSignals` call after it fires; at most one such
microtask is pending at any time along a permitted trace; when it fires it
disarms itself and force-finishes whatever scope is still active, so an
Unmanaged scope acquired with no enclosing active scope and never
explicitly finished leaves the register empty once the task runs. -/
theorem reaper_arms_once_fires_and_clears :
    (∀ (g : GState) (i : Nat), g.finalCleanup = false →
      (useSignals g i).finalCleanup = true) ∧
    (∀ (us : Nat → EffectStoreUsage) (ops : List Op),
      disciplined (initialState us) ops = true →
      (run (initialState us) ops).queuedCleanups ≤ 1) ∧
    (∀ g : GState, (finalCleanupTask g).finalCleanup = false) ∧
    (∀ (g : GState) (c : Nat), g.currentStore = some c →
      (g.stores c).doRestore = true → (g.stores c).prevStore = none →
      (finalCleanupTask g).currentStore = none) ∧
    (∀ g : GState, g.currentStore = none →
      finalCleanupTask g = { g with
        finalCleanup := false
        queuedCleanups := g.queuedCleanups - 1 }) := by
  refine ⟨?_, ?_, finalCleanupTask_finalCleanup, ?_, ?_⟩
  · intro g i h
    show (_start (ensureFinalCleanup g) i).finalCleanup = true
    rw [_start_finalCleanup]
    simp [ensureFinalCleanup, h]
  · intro us ops hdc
    have hq := qinv_run hdc (show QInv (initialState us) by rfl)
    rw [hq]
    split_ifs <;> omega
  · intro g c hc hd hp
    unfold finalCleanupTask
    dsimp only
    rw [hc]
    show (if (g.stores c).doRestore = true then (g.stores c).prevStore
      else some c) = none
    rw [if_pos hd, hp]
  · intro g hcn
    unfold finalCleanupTask
    dsimp only
    rw [hcn]

/-- C5 witness for the amended claim: arming by a managed call, the pending
bound, and the reaper emptying the register after a dangling unmanaged
start, at concrete states. -/
theorem reaper_behaviour_witness :
    (useSignals (initialState usMC) 1).finalCleanup = true ∧
    (run (initialState usU) [Op.useSignals 0]).queuedCleanups ≤ 1 ∧
    (finalCleanupTask (run (initialState usU) [Op.useSignals 0])).finalCleanup = false ∧
    (finalCleanupTask (run (initialState usU) [Op.useSignals 0])).currentStore = none ∧
    finalCleanupTask (initialState usU) = { initialState usU with
      finalCleanup := false
      queuedCleanups := (initialState usU).queuedCleanups - 1 } :=
  ⟨reaper_arms_once_fires_and_clears.1 (initialState usMC) 1 (by decide),
   reaper_arms_once_fires_and_clears.2.1 usU [Op.useSignals 0] (by decide),
   reaper_arms_once_fires_and_clears.2.2.1 (run (initialState usU) [Op.useSignals 0]),
   reaper_arms_once_fires_and_clears.2.2.2.1 (run (initialState usU) [Op.useSignals 0]) 0
     (by decide) (by decide) (by decide),
   reaper_arms_once_fires_and_clears.2.2.2.2 (initialState usU) (by decide)⟩
